import Mathlib

/-!
Shallow embedding of the giskardpy_ros core components that the claims
concern: the QP solver driver (`QPSolver.solve_and_retry`, the relaxation
routine `relaxed_problem_data_to_qpSWIFT_format`, the filter step
`update_filters`), the monitor manager (`MonitorManager.update_state`,
`crucial_monitors_satisfied`, `add_monitor`), the control-loop mode
switching (`ControlLoop.switch_to_projection` / `switch_to_closed_loop`)
and the real-kinematic-sim behaviour (`RealKinSimPlugin.update`).
Numeric values that are floats in the source are modelled as rationals;
numpy boolean arrays as lists of booleans.
-/

namespace GiskardPy

/-- Modelled from the spec: the exception classes `QPSolverException`,
`InfeasibleException` and `HardConstraintsViolatedException` live in
`giskardpy.exceptions`, which is not part of the sources at hand.  The
spec's error taxonomy and the dispatch in `solve_and_retry` (an
`isinstance` check for `HardConstraintsViolatedException` inside an
`except InfeasibleException` handler) fix the hierarchy:
`HardConstraintsViolated <: Infeasible <: QPSolverException`.  The
constructor `nonQPError` stands for any Python exception outside the
`QPSolverException` tree (for example a `NameError`). -/
inductive Exc where
  | infeasible
  | hardConstraintsViolated
  | otherQPError
  | nonQPError
  deriving DecidableEq, Repr

/-- Membership in the `QPSolverException` class tree. -/
def Exc.isQPSolverException : Exc → Bool
  | .infeasible => true
  | .hardConstraintsViolated => true
  | .otherQPError => true
  | .nonQPError => false

/-- Membership in the `InfeasibleException` class tree. -/
def Exc.isInfeasibleException : Exc → Bool
  | .infeasible => true
  | .hardConstraintsViolated => true
  | .otherQPError => false
  | .nonQPError => false

/-- Outcome of one call to `QPSolver.solve`: a solution vector or a raised
exception. -/
abbrev SolveResult := Except Exc (List ℚ)

/-- Embedding of `QPSolver.solve_and_retry` (qp_solver.py lines 34-48),
parameterised by the outcome of `self.solve(substitutions,
relax_hard_constraints)` as a function of the `relax_hard_constraints`
flag.  The Python body is
`try: return self.solve(substitutions)` /
`except QPSolverException as e:` retry with
`self.solve(substitutions, relax_hard_constraints=True)`;
`except InfeasibleException as e2:` re-raise `e2` when it is a
`HardConstraintsViolatedException`, else re-raise `e`.  An exception that
a handler does not match propagates unchanged. -/
def solve_and_retry (solve : Bool → SolveResult) : SolveResult :=
  match solve false with
  | .ok sol => .ok sol
  | .error e =>
    if e.isQPSolverException then
      match solve true with
      | .ok sol => .ok sol
      | .error e2 =>
        if e2.isInfeasibleException then
          if e2 = .hardConstraintsViolated then .error e2 else .error e
        else
          .error e2
    else
      .error e

/-- Trace of the `relax_hard_constraints` flags of the `solve` calls that
`solve_and_retry` performs, in order. -/
def solve_and_retry_calls (solve : Bool → SolveResult) : List Bool :=
  match solve false with
  | .ok _ => [false]
  | .error e => if e.isQPSolverException then [false, true] else [false]

/-- Exit of one call to
`QPSWIFTFormatter.relaxed_problem_data_to_qpSWIFT_format`
(qp_solver.py lines 176-206).  `hardConstraintsViolatedExit` is the
`HardConstraintsViolatedException` raised when the retry counter is
exhausted; `nameErrorExit` is the `NameError` raised by the statement
`nlb_relaxed = nlb.copy()` on line 182: the names `nlb` and `ub` are not
defined in the function's scope (its parameters are `weights`, `nA_A`,
`nlb_ub_nlbA_ubA`), so every non-fatal attempt raises before reaching the
bound-widening, reweighting or counter-restoring statements. -/
inductive RelaxExit where
  | hardConstraintsViolatedExit
  | nameErrorExit
  deriving DecidableEq, Repr

/-- Embedding of `relaxed_problem_data_to_qpSWIFT_format` restricted to
its effect on `self.retries_with_relaxed_constraints` and its exit: the
counter is decremented, then compared against zero
(`if self.retries_with_relaxed_constraints <= 0`), raising
`HardConstraintsViolatedException` on exhaustion; otherwise execution
reaches line 182 and raises a `NameError` (see `RelaxExit`).  Neither
exit restores the counter: the restoring `+= 1` statements on lines 194
and 205 sit beyond the failing line.  Returns the counter value left in
the instance together with the exit taken. -/
def relaxed_problem_data_to_qpSWIFT_format (retries : ℤ) : ℤ × RelaxExit :=
  let r := retries - 1
  if r ≤ 0 then (r, .hardConstraintsViolatedExit)
  else (r, .nameErrorExit)

/-- Initial value of the class attribute `retries_with_relaxed_constraints`
(qp_solver.py line 20). -/
def initial_retries : ℤ := 5

/-- Counter value after `n` relaxation attempts of one solver instance,
starting from the initial budget. -/
def retries_after : ℕ → ℤ
  | 0 => initial_retries
  | n + 1 => (relaxed_problem_data_to_qpSWIFT_format (retries_after n)).1

/-- Exit taken by the `(n+1)`-st relaxation attempt of one solver
instance. -/
def relax_exit_at (n : ℕ) : RelaxExit :=
  (relaxed_problem_data_to_qpSWIFT_format (retries_after n)).2

/-! ### Filter step (`QPSWIFTFormatter.update_filters` / `apply_filters`) -/

/-- Numpy boolean-mask indexing `xs[mask]`: keeps the entries of `xs`
whose mask entry is true. -/
def maskSelect (mask : List Bool) (xs : List α) : List α :=
  (List.zip mask xs).filterMap (fun p => if p.1 then some p.2 else none)

/-- Numpy slice assignment `a[:k] = True` for `k` the Python value of the
slice end: sets the first `k` entries to `true`. -/
def setPrefTrue (xs : List Bool) (k : ℕ) : List Bool :=
  List.replicate (min k xs.length) true ++ xs.drop k

/-- Numpy slice read `a[-k:]` with positive `k`: the last `min k len`
entries.  The caller handles the Python quirk that `a[-0:]` is the whole
array. -/
def lastN (xs : List α) (k : ℕ) : List α :=
  xs.drop (xs.length - k)

/-- Numpy slice assignment `a[-k:] = b` with `k = b.length > 0` and
`k ≤ a.length`: replaces the last `k` entries by `b`. -/
def setSuffix (xs ys : List α) : List α :=
  xs.take (xs.length - ys.length) ++ ys

/-- Numpy slice assignment `a[:m] = b` with `m = b.length ≤ a.length`:
replaces the first `m` entries by `b`. -/
def setPref (xs ys : List α) : List α :=
  ys.take xs.length ++ xs.drop ys.length

/-- Filter masks computed by `update_filters` (qp_solver.py lines
208-224). -/
structure QPFilters where
  weight_filter : List Bool
  bE_filter : List Bool
  bA_filter_half : List Bool
  bA_filter : List Bool
  deriving DecidableEq, Repr

/-- Embedding of qp_solver.py lines 210-211: `self.weight_filter =
self.weights != 0` followed by the slice assignment
`self.weight_filter[:-self.num_slack_variables] = True`.  Python slicing
with a negative stop index is reproduced exactly: `[:-num_slack]`
degenerates to the empty slice when `num_slack = 0`, so no prefix is
forced to true in that case.  The source's `wf0.length` equals
`weights.length`. -/
def weight_filter_of (weights : List ℚ) (numSlack : ℕ) : List Bool :=
  setPrefTrue (weights.map (fun w => decide (w ≠ 0)))
    (if numSlack = 0 then 0 else weights.length - numSlack)

/-- Embedding of `QPSWIFTFormatter.update_filters` (qp_solver.py lines
208-224) on a problem with weight vector `weights`, `numEqSlack`
equality-slack columns, `numNeqSlack` inequality-slack columns, `numEq`
equality-constraint rows and `numNeq` inequality-constraint rows (so
`self.E.shape[0] = numEq` and `self.nI_nA_I_A.shape[0] =
2 * (weights.length + numNeq)`).  The slice read
`weight_filter[-num_slack:]` degenerates to the whole array when
`num_slack = 0`, exactly as in Python. -/
def update_filters (weights : List ℚ) (numEqSlack numNeqSlack numEq numNeq : ℕ) :
    QPFilters :=
  let numSlack := numEqSlack + numNeqSlack
  let wf := weight_filter_of weights numSlack
  let slack_part := if numSlack = 0 then wf else lastN wf numSlack
  let bE_part := slack_part.take numEqSlack
  let bA_part := slack_part.drop numEqSlack
  let bE0 : List Bool := List.replicate numEq true
  let bE := if 0 < bE_part.length then setSuffix bE0 bE_part else bE0
  let half0 : List Bool := List.replicate (weights.length + numNeq) true
  let half1 := if 0 < bA_part.length then setSuffix half0 bA_part else half0
  let half := setPref half1 wf
  ⟨wf, bE, half, half ++ half⟩

/-- Embedding of the part of `apply_filters` (qp_solver.py lines 226-233)
the claims mention: the filtered weight vector `self.weights =
self.weights[self.weight_filter]`. -/
def filtered_weights (weights : List ℚ) (numEqSlack numNeqSlack numEq numNeq : ℕ) :
    List ℚ :=
  maskSelect (update_filters weights numEqSlack numNeqSlack numEq numNeq).weight_filter
    weights

/-! ### Monitor manager (`MonitorManager`) -/

/-- Embedding of `flipped_to_one` (monitor_manager.py lines 17-24):
`logical_and(logical_not(a), logical_or(a, b))`, elementwise. -/
def flipped_to_one (a b : Bool) : Bool := (!a) && (a || b)

/-- Three-list pointwise zip, used for numpy elementwise operations whose
operands are all the same length. -/
def zipWith3 (f : α → β → γ → δ) : List α → List β → List γ → List δ
  | a :: as, b :: bs, c :: cs => f a b c :: zipWith3 f as bs cs
  | _, _, _ => []

/-- Positions (ascending) at which a boolean vector is true; the index
list traversed by `for i, state in enumerate(any_flips): if state: ...`. -/
def trueIndices (l : List Bool) : List ℕ :=
  (List.range l.length).filter (fun i => l.getD i false)

/-- Mutable state of a `MonitorManager` between `update_state` calls:
`switches_state` (the OR-accumulator written only under the
`stay_one_filter` mask) and `state` (the latched state vector).  Both are
initialised to all-zeros by `compile_monitors` (monitor_manager.py lines
48-49). -/
structure MMVec where
  switches : List Bool
  state : List Bool
  deriving DecidableEq, Repr

/-- All-zero monitor state produced by `compile_monitors` for `n`
monitors. -/
def init_monitor_vec (n : ℕ) : MMVec :=
  ⟨List.replicate n false, List.replicate n false⟩

/-- Result of one `update_state` call: the successor state, the ids whose
`notify_flipped(trajectory_time)` was invoked (ascending, one entry per
id), and the ids of stay-one monitors whose `update_substitution_values`
was invoked via `trigger_monitor_flips`. -/
structure MMStep where
  next : MMVec
  notified : List ℕ
  substitutionUpdated : List ℕ
  deriving DecidableEq, Repr

/-- Embedding of `MonitorManager.update_state` (monitor_manager.py lines
58-73) for raw 0/1 input `raw`.  The masked assignment
`switches_state[stay_one_filter] = filtered_switches | filtered_new_state`
is the pointwise update that ORs in `raw` exactly at stay-one positions;
`next_state = switches_state | new_state` uses the updated accumulator;
`any_flips = logical_xor(state, next_state)` selects the ids notified.
`trigger_monitor_flips` receives the mask `flipped_to_one` computed on
the stay-one subvectors, i.e. the stay-one positions where the
accumulator is false and the raw value true. -/
def update_state (stayOne : List Bool) (s : MMVec) (raw : List Bool) : MMStep :=
  let newSwitches :=
    zipWith3 (fun so sw r => if so then sw || r else sw) stayOne s.switches raw
  let nextState := List.zipWith (· || ·) newSwitches raw
  let anyFlips := List.zipWith (fun a b => a != b) s.state nextState
  let subFlips :=
    zipWith3 (fun so sw r => so && flipped_to_one sw r) stayOne s.switches raw
  ⟨⟨newSwitches, nextState⟩, trueIndices anyFlips, trueIndices subFlips⟩

/-- Latched-state evolution over a sequence of raw vectors (successive
`update_state` calls within one episode). -/
def run_updates (stayOne : List Bool) (s : MMVec) (raws : List (List Bool)) : MMVec :=
  raws.foldl (fun st raw => (update_state stayOne st raw).next) s

/-- Embedding of `MonitorManager.crucial_monitors_satisfied`
(monitor_manager.py lines 90-92): `np.all(self.state[self.crucial_filter])`. -/
def crucial_monitors_satisfied (crucial : List Bool) (state : List Bool) : Bool :=
  (maskSelect crucial state).all (fun b => b)

/-- Registered monitor as far as registration is concerned; the fields
beyond `name` and `id` (expression, stay_one, crucial, state) play no
role in `add_monitor`. -/
structure Monitor where
  name : String
  id : ℕ
  deriving DecidableEq, Repr

/-- Embedding of `MonitorManager.add_monitor` (monitor_manager.py lines
75-77): `self.monitors.append(monitor)` followed by
`monitor.set_id(len(self.monitors) - 1)`.  The list length after the
append is the old length plus one, so the assigned id is the monitor's
position.  No check of any kind is performed on the name. -/
def add_monitor (monitors : List Monitor) (nm : String) : List Monitor :=
  monitors ++ [⟨nm, monitors.length⟩]

/-- Registry obtained by registering a sequence of monitor names in order,
starting from the empty registry of a fresh `MonitorManager`. -/
def register_all (names : List String) : List Monitor :=
  names.foldl add_monitor []

/-! ### Real kinematic sim (`RealKinSimPlugin`) -/

/-- State of `RealKinSimPlugin` across `update` calls: `self.last_time`,
set to `None` by `initialise` (real_kinematic_sim.py lines 12-14). -/
structure KinSimVar where
  last_time : Option ℚ
  deriving DecidableEq, Repr

/-- State right after `RealKinSimPlugin.initialise`. -/
def rks_initialise : KinSimVar := ⟨none⟩

/-- Embedding of `RealKinSimPlugin.update` (real_kinematic_sim.py lines
19-30) given the current value `next_time` of the time identifier.  The
second component is the `dt` passed to `GodMap.world.update_state` when
that call happens, `none` when the early return is taken
(`next_time <= 0.0 or self.last_time is None`).  In both branches
`self.last_time` is set to `next_time`. -/
def rks_update : KinSimVar → ℚ → KinSimVar × Option ℚ
  | ⟨none⟩, next_time => (⟨some next_time⟩, none)
  | ⟨some t⟩, next_time =>
    if next_time ≤ 0 then (⟨some next_time⟩, none)
    else (⟨some next_time⟩, some (next_time - t))

/-- `dt` effects of a sequence of successive `update` calls from state
`s`, in call order: the `i`-th entry is the `dt` passed to
`update_state` during the `i`-th call, or `none` when that call took the
early return. -/
def rks_effects (s : KinSimVar) : List ℚ → List (Option ℚ)
  | [] => []
  | t :: ts => (rks_update s t).2 :: rks_effects (rks_update s t).1 ts

/-! ### Control loop (`ControlLoop`, control_loop.py) -/

/-- Child behaviours that appear in the `ControlLoop` composite's child
list (control_loop.py lines 41-121).  `goalCanceled` stands for the
`FailureIsRunning`-wrapped `GoalCanceled` child. -/
inductive Stage where
  | goalCanceled
  | collisionChecker
  | evaluateMonitors
  | checkMonitors
  | controllerPlugin
  | cycleCounter
  | logTraj
  | publishState
  | projectionSync
  | closedLoopSync
  | timePlugin
  | rosTime
  | kinSim
  | realKinSim
  | sendControls
  deriving DecidableEq, Repr

/-- Modelled from the spec: `AsyncBehavior.insert_child` and
`remove_child` (giskardpy_ros.tree.composites.async_composite, not among
the sources at hand) maintain the ordered child list of the composite;
the spec describes mode switching as removing a stage subset and
inserting the other subset at fixed positions in that ordered list.
`insert_child(child, index)` is modelled as Python `list.insert`: a
negative index counts from the end (`max(0, len + index)`), a
non-negative one clamps to the length. -/
def pyInsert (xs : List α) (i : ℤ) (x : α) : List α :=
  List.insertIdx (if i < 0 then xs.length - (-i).toNat else min i.toNat xs.length) x xs

/-- Modelled from the spec: `remove_child` deletes the given child from
the ordered child list (first occurrence). -/
def pyRemove [DecidableEq α] (xs : List α) (x : α) : List α :=
  xs.erase x

/-- Mode-relevant state of a `ControlLoop`: its ordered child list and
the `in_projection` flag consulted by the toggle decorators. -/
structure LoopState where
  children : List Stage
  in_projection : Bool
  deriving DecidableEq, Repr

/-- Child list built by `ControlLoop.__init__` (control_loop.py lines
41-74) before either mode's behaviours are added: goal-canceled guard,
optional collision checker, monitor evaluation, monitor check,
controller, cycle counter, optional trajectory logging, state publishing. -/
def base_children (collision logT : Bool) : List Stage :=
  [.goalCanceled] ++ (if collision then [.collisionChecker] else []) ++
    [.evaluateMonitors, .checkMonitors, .controllerPlugin, .cycleCounter] ++
    (if logT then [.logTraj] else []) ++ [.publishState]

/-- Embedding of `remove_projection_behaviors` (control_loop.py lines
97-101): removes the projection synchronization, time and kinematic-sim
children.  The visualization-marker child it also removes belongs to the
nested `publish_state` composite, not to this child list. -/
def remove_projection_behaviors (s : LoopState) : LoopState :=
  { s with children := pyRemove (pyRemove (pyRemove s.children .projectionSync) .timePlugin) .kinSim }

/-- Embedding of `remove_closed_loop_behaviors` (control_loop.py lines
103-107): removes the closed-loop synchronization, ROS time, real
kinematic sim and send-controls children. -/
def remove_closed_loop_behaviors (s : LoopState) : LoopState :=
  { s with children :=
      pyRemove (pyRemove (pyRemove (pyRemove s.children .closedLoopSync) .rosTime) .realKinSim) .sendControls }

/-- Embedding of `add_projection_behaviors` (control_loop.py lines
109-114): inserts the projection synchronization at index 1 and the time
and kinematic-sim children at index -2, then sets `in_projection`. -/
def add_projection_behaviors (s : LoopState) : LoopState :=
  { children := pyInsert (pyInsert (pyInsert s.children 1 .projectionSync) (-2) .timePlugin) (-2) .kinSim,
    in_projection := true }

/-- Embedding of `add_closed_loop_behaviors` (control_loop.py lines
116-121): inserts the closed-loop synchronization at index 1 and the ROS
time, real kinematic sim and send-controls children at index -2, then
clears `in_projection`. -/
def add_closed_loop_behaviors (s : LoopState) : LoopState :=
  { children := pyInsert (pyInsert (pyInsert (pyInsert s.children 1 .closedLoopSync) (-2) .rosTime) (-2) .realKinSim) (-2) .sendControls,
    in_projection := false }

/-- Embedding of `switch_to_projection` (control_loop.py lines 76-79).
Modelled from the spec for the decorator: `@toggle_on('in_projection')`
(giskardpy.utils.decorators, not among the sources at hand) runs the body
only when the flag is not already set — the spec requires each toggle to
be idempotent when applied twice. -/
def switch_to_projection (s : LoopState) : LoopState :=
  if s.in_projection then s
  else add_projection_behaviors (remove_closed_loop_behaviors s)

/-- Embedding of `switch_to_closed_loop` (control_loop.py lines 81-85),
with `@toggle_off('in_projection')` modelled from the spec as running the
body only when the flag is currently set. -/
def switch_to_closed_loop (s : LoopState) : LoopState :=
  if s.in_projection then add_closed_loop_behaviors (remove_projection_behaviors s)
  else s

/-- Control loop in closed-loop mode: the constructor's child list with
the closed-loop behaviours added. -/
def closed_loop_state (collision logT : Bool) : LoopState :=
  add_closed_loop_behaviors ⟨base_children collision logT, true⟩

/-- Invariant of the monitor-manager state vectors relating the
OR-accumulator `switches_state` to the latched `state`: both have one
entry per monitor; at stay-one positions the accumulator agrees with the
latched state, and everywhere else it is still the all-zero value that
`compile_monitors` initialised (`update_state` only ever writes it under
the `stay_one_filter` mask). -/
def MMInv (stayOne : List Bool) (s : MMVec) : Prop :=
  s.switches.length = stayOne.length ∧ s.state.length = stayOne.length ∧
  ∀ i, i < stayOne.length →
    (stayOne.getD i false = true → s.switches.getD i false = s.state.getD i false) ∧
    (stayOne.getD i false = false → s.switches.getD i false = false)

/-- Example monitor name for concrete registration runs. -/
def nmA : String := "reached1"

/-- Second example monitor name for concrete registration runs. -/
def nmB : String := "reached2"

/-! ## Theorems about the claims -/

/-- C3: `solve_and_retry` calls `solve` once and returns its solution
with no retry when it succeeds; when the first call raises an
infeasibility signal it retries exactly once with
`relax_hard_constraints=true`; a `HardConstraintsViolated` from the
second attempt is propagated, while any other infeasibility from the
second attempt makes the first attempt's original error propagate
unchanged. -/
theorem claimC3 (solve : Bool → SolveResult) :
    (∀ sol, solve false = .ok sol →
      solve_and_retry solve = .ok sol ∧ solve_and_retry_calls solve = [false]) ∧
    (∀ e, solve false = .error e → e.isInfeasibleException = true →
      solve_and_retry_calls solve = [false, true] ∧
      (solve true = .error .hardConstraintsViolated →
        solve_and_retry solve = .error .hardConstraintsViolated) ∧
      (∀ e2, solve true = .error e2 → e2.isInfeasibleException = true →
        e2 ≠ .hardConstraintsViolated → solve_and_retry solve = .error e)) := by
  constructor
  · intro sol h
    constructor
    · simp [solve_and_retry, h]
    · simp [solve_and_retry_calls, h]
  · intro e h he
    have hqp : e.isQPSolverException = true := by
      cases e <;> simp_all [Exc.isInfeasibleException, Exc.isQPSolverException]
    refine ⟨by simp [solve_and_retry_calls, h, hqp], ?_, ?_⟩
    · intro h2
      simp [solve_and_retry, h, hqp, h2, Exc.isInfeasibleException]
    · intro e2 h2 he2 hne
      simp [solve_and_retry, h, hqp, h2, he2, hne]

/-- C3 witness: a run whose first solve is infeasible and whose relaxed
retry violates hard constraints. -/
theorem claimC3_wit :
    solve_and_retry (fun b => .error (if b then .hardConstraintsViolated else .infeasible))
      = .error .hardConstraintsViolated ∧
    solve_and_retry_calls (fun b => .error (if b then .hardConstraintsViolated else .infeasible))
      = [false, true] := by
  have h := claimC3 (fun b => .error (if b then .hardConstraintsViolated else .infeasible))
  have h2 := h.2 .infeasible (by rfl) (by decide)
  exact ⟨h2.2.1 (by rfl), h2.1⟩

/-- C1 counterexample: at the initial budget the relaxation routine takes
a non-fatal exit (a `NameError`, not the fatal hard-constraints-violated
error) yet leaves the counter decremented instead of restoring it. -/
theorem claimC1_cex :
    relaxed_problem_data_to_qpSWIFT_format initial_retries
        = (initial_retries - 1, RelaxExit.nameErrorExit) ∧
      initial_retries - 1 ≠ initial_retries := by
  decide

/-- C1 amended: starting from the initial budget 5, the counter never
becomes negative; every relaxation attempt decrements it by one and no
exit restores it (each non-fatal exit is the line-182 `NameError`), so
each `solve_and_retry` chain that reaches relaxation consumes exactly one
unit; the fatal `HardConstraintsViolated` exit is taken exactly on the
fifth attempt, with the counter at zero. -/
theorem claimC1_amended :
    ∀ n : Fin 5,
      0 ≤ retries_after ((n : ℕ) + 1) ∧
      retries_after ((n : ℕ) + 1) = retries_after (n : ℕ) - 1 ∧
      (relax_exit_at (n : ℕ) = .hardConstraintsViolatedExit ↔ (n : ℕ) = 4) ∧
      retries_after 5 = 0 := by
  decide

/-- C6: the relaxation routine at a non-final attempt (counter still
positive after the decrement) raises a `NameError` from the undefined
names on line 182 instead of widening slack bounds, reweighting
violating variables, or raising the non-fatal infeasibility error — the
code evaluated at the failing inputs. -/
theorem claimC6 :
    (relaxed_problem_data_to_qpSWIFT_format 5).2 = RelaxExit.nameErrorExit ∧
      (relaxed_problem_data_to_qpSWIFT_format 2).2 = RelaxExit.nameErrorExit := by
  decide

/-- C9: starting from closed-loop mode (for any collision-checking and
trajectory-logging configuration), `switch_to_projection` followed by
`switch_to_closed_loop` restores the exact pre-switch stage list; the
first switch removes exactly the closed-loop subset (yielding the
constructor's base list) and inserts the projection subset at its fixed
positions. -/
theorem claimC9 :
    ∀ collision logT : Bool,
      switch_to_closed_loop (switch_to_projection (closed_loop_state collision logT))
          = closed_loop_state collision logT ∧
        (switch_to_projection (closed_loop_state collision logT)).children
          = (add_projection_behaviors ⟨base_children collision logT, false⟩).children ∧
        (switch_to_projection (closed_loop_state collision logT)).in_projection = true := by
  decide

/-! ### List index helper lemmas -/

theorem getD_zipWith_bool (f : Bool → Bool → Bool) :
    ∀ (as bs : List Bool) (i : ℕ), i < as.length → bs.length = as.length →
      (List.zipWith f as bs).getD i false = f (as.getD i false) (bs.getD i false) := by
  intro as
  induction as with
  | nil => intro bs i hi _; simp at hi
  | cons a as ih =>
    intro bs i hi hb
    cases bs with
    | nil => simp at hb
    | cons b bs =>
      cases i with
      | zero => simp
      | succ j =>
        simp only [List.zipWith_cons_cons, List.getD_cons_succ]
        exact ih bs j (by simpa using hi) (by simpa using hb)

theorem getD_zipWith3_bool (f : Bool → Bool → Bool → Bool) :
    ∀ (as bs cs : List Bool) (i : ℕ), i < as.length → bs.length = as.length →
      cs.length = as.length →
      (zipWith3 f as bs cs).getD i false
        = f (as.getD i false) (bs.getD i false) (cs.getD i false) := by
  intro as
  induction as with
  | nil => intro bs cs i hi _ _; simp at hi
  | cons a as ih =>
    intro bs cs i hi hb hc
    cases bs with
    | nil => simp at hb
    | cons b bs =>
      cases cs with
      | nil => simp at hc
      | cons c cs =>
        cases i with
        | zero => simp [zipWith3]
        | succ j =>
          simp only [zipWith3, List.getD_cons_succ]
          exact ih bs cs j (by simpa using hi) (by simpa using hb) (by simpa using hc)

theorem length_zipWith3 (f : α → β → γ → δ) :
    ∀ (as : List α) (bs : List β) (cs : List γ),
      (zipWith3 f as bs cs).length = min as.length (min bs.length cs.length) := by
  intro as
  induction as with
  | nil => intro bs cs; simp [zipWith3]
  | cons a as ih =>
    intro bs cs
    cases bs with
    | nil => simp [zipWith3]
    | cons b bs =>
      cases cs with
      | nil => simp [zipWith3]
      | cons c cs => simp [zipWith3, ih, Nat.succ_min_succ]

theorem getD_replicate_false : ∀ (n i : ℕ), (List.replicate n false).getD i false = false := by
  intro n
  induction n with
  | zero => intro i; simp
  | succ m ih =>
    intro i
    cases i with
    | zero => simp [List.replicate_succ]
    | succ j => simp [List.replicate_succ, ih]

theorem mem_trueIndices (l : List Bool) (i : ℕ) :
    i ∈ trueIndices l ↔ i < l.length ∧ l.getD i false = true := by
  simp [trueIndices, List.mem_filter, List.mem_range]

theorem nodup_trueIndices (l : List Bool) : (trueIndices l).Nodup :=
  (List.nodup_range _).filter _

/-! ### Monitor-manager lemmas -/

theorem update_state_switches_getD (stayOne : List Bool) (s : MMVec) (raw : List Bool)
    (hsw : s.switches.length = stayOne.length) (hraw : raw.length = stayOne.length)
    (i : ℕ) (hi : i < stayOne.length) :
    (update_state stayOne s raw).next.switches.getD i false
      = if stayOne.getD i false then s.switches.getD i false || raw.getD i false
        else s.switches.getD i false :=
  getD_zipWith3_bool _ stayOne s.switches raw i hi hsw hraw

theorem update_state_switches_length (stayOne : List Bool) (s : MMVec) (raw : List Bool)
    (hsw : s.switches.length = stayOne.length) (hraw : raw.length = stayOne.length) :
    (update_state stayOne s raw).next.switches.length = stayOne.length := by
  simp [update_state, length_zipWith3, hsw, hraw]

theorem update_state_state_length (stayOne : List Bool) (s : MMVec) (raw : List Bool)
    (hsw : s.switches.length = stayOne.length) (hraw : raw.length = stayOne.length) :
    (update_state stayOne s raw).next.state.length = stayOne.length := by
  simp [update_state, length_zipWith3, hsw, hraw]

theorem update_state_state_getD (stayOne : List Bool) (s : MMVec) (raw : List Bool)
    (hsw : s.switches.length = stayOne.length) (hraw : raw.length = stayOne.length)
    (i : ℕ) (hi : i < stayOne.length) :
    (update_state stayOne s raw).next.state.getD i false
      = ((if stayOne.getD i false then s.switches.getD i false || raw.getD i false
          else s.switches.getD i false) || raw.getD i false) := by
  have hlen : (update_state stayOne s raw).next.switches.length = stayOne.length :=
    update_state_switches_length stayOne s raw hsw hraw
  have h1 : (update_state stayOne s raw).next.state
      = List.zipWith (· || ·) (update_state stayOne s raw).next.switches raw := rfl
  rw [h1, getD_zipWith_bool _ _ raw i (by omega) (by omega),
    update_state_switches_getD stayOne s raw hsw hraw i hi]

theorem mminv_init (stayOne : List Bool) :
    MMInv stayOne (init_monitor_vec stayOne.length) := by
  refine ⟨by simp [init_monitor_vec], by simp [init_monitor_vec], ?_⟩
  intro i _
  constructor
  · intro _
    simp [init_monitor_vec, getD_replicate_false]
  · intro _
    simp [init_monitor_vec, getD_replicate_false]

theorem mminv_step (stayOne : List Bool) (s : MMVec) (raw : List Bool)
    (hinv : MMInv stayOne s) (hraw : raw.length = stayOne.length) :
    MMInv stayOne (update_state stayOne s raw).next := by
  obtain ⟨hsw, hst, hpt⟩ := hinv
  refine ⟨update_state_switches_length stayOne s raw hsw hraw,
    update_state_state_length stayOne s raw hsw hraw, ?_⟩
  intro i hi
  have e1 := update_state_switches_getD stayOne s raw hsw hraw i hi
  have e2 := update_state_state_getD stayOne s raw hsw hraw i hi
  constructor
  · intro hso
    rw [e1, e2, hso]
    simp [Bool.or_assoc]
  · intro hso
    rw [e1, hso, if_neg (by simp)]
    exact (hpt i hi).2 hso

theorem update_state_state_persist (stayOne : List Bool) (s : MMVec) (raw : List Bool)
    (hinv : MMInv stayOne s) (hraw : raw.length = stayOne.length)
    (i : ℕ) (hi : i < stayOne.length) (hso : stayOne.getD i false = true)
    (hst : s.state.getD i false = true) :
    (update_state stayOne s raw).next.state.getD i false = true := by
  obtain ⟨hsw, _, hpt⟩ := hinv
  rw [update_state_state_getD stayOne s raw hsw hraw i hi, hso, (hpt i hi).1 hso, hst]
  simp

theorem mminv_run (stayOne : List Bool) :
    ∀ (raws : List (List Bool)) (s : MMVec), MMInv stayOne s →
      (∀ r ∈ raws, r.length = stayOne.length) →
      MMInv stayOne (run_updates stayOne s raws) := by
  intro raws
  induction raws with
  | nil => intro s hinv _; exact hinv
  | cons raw rest ih =>
    intro s hinv hlen
    have h1 : run_updates stayOne s (raw :: rest)
        = run_updates stayOne (update_state stayOne s raw).next rest := rfl
    rw [h1]
    exact ih _ (mminv_step stayOne s raw hinv (hlen raw (by simp)))
      (fun r hr => hlen r (by simp [hr]))

theorem run_updates_persist (stayOne : List Bool) (i : ℕ)
    (hi : i < stayOne.length) (hso : stayOne.getD i false = true) :
    ∀ (raws : List (List Bool)) (s : MMVec), MMInv stayOne s →
      (∀ r ∈ raws, r.length = stayOne.length) →
      s.state.getD i false = true →
      (run_updates stayOne s raws).state.getD i false = true := by
  intro raws
  induction raws with
  | nil => intro s _ _ hst; exact hst
  | cons raw rest ih =>
    intro s hinv hlen hst
    have h1 : run_updates stayOne s (raw :: rest)
        = run_updates stayOne (update_state stayOne s raw).next rest := rfl
    rw [h1]
    exact ih _ (mminv_step stayOne s raw hinv (hlen raw (by simp)))
      (fun r hr => hlen r (by simp [hr]))
      (update_state_state_persist stayOne s raw hinv (hlen raw (by simp)) i hi hso hst)

/-- C2: for any monitor at a stay-one position, over any sequence of raw
0/1 vectors fed through successive `update_state` calls of one episode
(starting from the all-zero state that `compile_monitors` initialises),
once the latched state is true it stays true in every later cycle,
regardless of the subsequent raw values. -/
theorem claimC2 (stayOne : List Bool) (raws1 raws2 : List (List Bool)) (i : ℕ)
    (hi : i < stayOne.length)
    (hlen1 : ∀ r ∈ raws1, r.length = stayOne.length)
    (hlen2 : ∀ r ∈ raws2, r.length = stayOne.length)
    (hso : stayOne.getD i false = true)
    (hlatched : (run_updates stayOne (init_monitor_vec stayOne.length) raws1).state.getD i false
      = true) :
    (run_updates stayOne (run_updates stayOne (init_monitor_vec stayOne.length) raws1)
        raws2).state.getD i false = true :=
  run_updates_persist stayOne i hi hso raws2 _
    (mminv_run stayOne raws1 _ (mminv_init stayOne) hlen1) hlen2 hlatched

/-- C2 witness: one stay-one monitor latched by the raw sequence
`[1]` stays true through the subsequent raw value `0`. -/
theorem claimC2_wit :
    List.getD [true] 0 false = true ∧
      (run_updates [true] (run_updates [true] (init_monitor_vec 1) [[true]])
          [[false]]).state.getD 0 false = true :=
  ⟨by decide,
    claimC2 [true] [[true]] [[false]] 0 (by decide) (by decide) (by decide) (by decide)
      (by decide)⟩

/-- C5: one `update_state` call on a reachable monitor-manager state (one
satisfying `MMInv`) sets the latched state of each stay-one monitor to
its previous latched state OR its raw value and that of every other
monitor to its raw value, and invokes `notify_flipped` exactly on the
monitors whose latched state differs from the previous cycle's latched
vector — each id at most once. -/
theorem claimC5 (stayOne : List Bool) (s : MMVec) (raw : List Bool)
    (hinv : MMInv stayOne s) (hraw : raw.length = stayOne.length) :
    (∀ i, i < stayOne.length →
      (update_state stayOne s raw).next.state.getD i false
        = if stayOne.getD i false then s.state.getD i false || raw.getD i false
          else raw.getD i false) ∧
    (∀ i, i ∈ (update_state stayOne s raw).notified ↔
      i < stayOne.length ∧
        ¬ (update_state stayOne s raw).next.state.getD i false = s.state.getD i false) ∧
    (update_state stayOne s raw).notified.Nodup := by
  obtain ⟨hsw, hst, hpt⟩ := hinv
  have hstate : ∀ i, i < stayOne.length →
      (update_state stayOne s raw).next.state.getD i false
        = if stayOne.getD i false then s.state.getD i false || raw.getD i false
          else raw.getD i false := by
    intro i hi
    rw [update_state_state_getD stayOne s raw hsw hraw i hi]
    rcases h : stayOne.getD i false with _ | _
    · rw [if_neg (by simp), if_neg (by simp), (hpt i hi).2 h]
      simp
    · rw [if_pos rfl, if_pos rfl, (hpt i hi).1 h]
      simp [Bool.or_assoc]
  refine ⟨hstate, ?_, ?_⟩
  · intro i
    have hnl : (update_state stayOne s raw).next.state.length = stayOne.length :=
      update_state_state_length stayOne s raw hsw hraw
    have hflips : (update_state stayOne s raw).notified
        = trueIndices (List.zipWith (fun a b => a != b) s.state
            (update_state stayOne s raw).next.state) := rfl
    rw [hflips, mem_trueIndices]
    have hlzip : (List.zipWith (fun a b : Bool => a != b) s.state
        (update_state stayOne s raw).next.state).length = stayOne.length := by
      simp [hst, hnl]
    rw [hlzip]
    constructor
    · rintro ⟨h1, h2⟩
      refine ⟨h1, ?_⟩
      rw [getD_zipWith_bool _ s.state _ i (by omega) (by omega)] at h2
      intro hc
      rw [hc] at h2
      simp at h2
    · rintro ⟨h1, h2⟩
      refine ⟨h1, ?_⟩
      rw [getD_zipWith_bool _ s.state _ i (by omega) (by omega)]
      rcases ha : s.state.getD i false with _ | _ <;>
        rcases hb : (update_state stayOne s raw).next.state.getD i false with _ | _ <;>
        simp_all
  · exact nodup_trueIndices _

/-- C5 witness: two monitors, the first latching (stay-one), raw input
`[1, 0]` from a state where the second monitor was latched: the first
monitor switches on, the second off, and both ids are notified once. -/
theorem claimC5_wit :
    ((update_state [true, false] ⟨[false, false], [false, true]⟩ [true, false]).next.state.getD 0
        false
      = if List.getD [true, false] 0 false then
          List.getD [false, true] 0 false || List.getD [true, false] 0 false
        else List.getD [true, false] 0 false) ∧
      (0 ∈ (update_state [true, false] ⟨[false, false], [false, true]⟩ [true, false]).notified ↔
        0 < 2 ∧
          ¬ (update_state [true, false] ⟨[false, false], [false, true]⟩
                [true, false]).next.state.getD 0 false
            = List.getD [false, true] 0 false) := by
  have h := claimC5 [true, false] ⟨[false, false], [false, true]⟩ [true, false]
    (by refine ⟨by decide, by decide, ?_⟩; decide) (by decide)
  exact ⟨h.1 0 (by decide), h.2.1 0⟩

/-! ### Crucial-satisfaction lemmas -/

theorem crucial_sat_cons (cb sb : Bool) (cs ss : List Bool) :
    crucial_monitors_satisfied (cb :: cs) (sb :: ss)
      = ((!cb || sb) && crucial_monitors_satisfied cs ss) := by
  cases cb <;> cases sb <;> simp [crucial_monitors_satisfied, maskSelect]

theorem crucial_sat_iff : ∀ (c st : List Bool), c.length = st.length →
    (crucial_monitors_satisfied c st = true ↔
      ∀ i, i < c.length → c.getD i false = true → st.getD i false = true) := by
  intro c
  induction c with
  | nil =>
    intro st _
    simp [crucial_monitors_satisfied, maskSelect]
  | cons cb cs ih =>
    intro st h
    cases st with
    | nil => simp at h
    | cons sb ss =>
      have h' : cs.length = ss.length := by simpa using h
      rw [crucial_sat_cons, Bool.and_eq_true]
      constructor
      · rintro ⟨h1, h2⟩ i hi hc
        cases i with
        | zero =>
          rw [List.getD_cons_zero] at hc ⊢
          rw [hc] at h1
          simpa using h1
        | succ j =>
          rw [List.getD_cons_succ] at hc ⊢
          exact (ih ss h').mp h2 j (by simpa using hi) hc
      · intro hall
        constructor
        · cases hc : cb
          · simp
          · have := hall 0 (by simp) (by simpa using hc)
            simpa using this
        · exact (ih ss h').mpr
            (fun j hj hc => hall (j + 1) (by simpa using hj) (by simpa using hc))

/-- C7: `crucial_monitors_satisfied` is true exactly when every monitor
under the crucial mask has latched state true; it is vacuously true when
no monitor is crucial; and its value depends only on the latched states
at crucial positions. -/
theorem claimC7 (crucial st : List Bool) (h : crucial.length = st.length) :
    (crucial_monitors_satisfied crucial st = true ↔
      ∀ i, i < crucial.length → crucial.getD i false = true → st.getD i false = true) ∧
    ((∀ i, i < crucial.length → crucial.getD i false = false) →
      crucial_monitors_satisfied crucial st = true) ∧
    (∀ st2, st2.length = st.length →
      (∀ i, i < crucial.length → crucial.getD i false = true →
        st.getD i false = st2.getD i false) →
      crucial_monitors_satisfied crucial st = crucial_monitors_satisfied crucial st2) := by
  refine ⟨crucial_sat_iff crucial st h, ?_, ?_⟩
  · intro hnone
    exact (crucial_sat_iff crucial st h).mpr
      (fun i hi hc => absurd (hc ▸ hnone i hi) (by simp))
  · intro st2 hlen2 hagree
    have h2 : crucial.length = st2.length := by omega
    have hiff : crucial_monitors_satisfied crucial st = true ↔
        crucial_monitors_satisfied crucial st2 = true := by
      rw [crucial_sat_iff crucial st h, crucial_sat_iff crucial st2 h2]
      constructor
      · intro hall i hi hc
        rw [← hagree i hi hc]
        exact hall i hi hc
      · intro hall i hi hc
        rw [hagree i hi hc]
        exact hall i hi hc
    cases hx : crucial_monitors_satisfied crucial st <;>
      cases hy : crucial_monitors_satisfied crucial st2 <;> simp_all

/-- C7 witness: with one crucial and one non-crucial monitor, the
satisfaction query is determined by the crucial monitor alone. -/
theorem claimC7_wit :
    (crucial_monitors_satisfied [true, false] [true, false] = true ↔
      ∀ i, i < 2 → List.getD [true, false] i false = true →
        List.getD [true, false] i false = true) ∧
      crucial_monitors_satisfied [true, false] [true, false]
        = crucial_monitors_satisfied [true, false] [true, true] := by
  have h := claimC7 [true, false] [true, false] (by decide)
  exact ⟨h.1, h.2.2 [true, true] (by decide) (by decide)⟩

/-! ### Registration lemmas -/

theorem foldl_add_monitor_length :
    ∀ (names : List String) (acc : List Monitor),
      (names.foldl add_monitor acc).length = acc.length + names.length := by
  intro names
  induction names with
  | nil => intro acc; simp
  | cons nm rest ih =>
    intro acc
    have h1 : (nm :: rest).foldl add_monitor acc = rest.foldl add_monitor (add_monitor acc nm) :=
      rfl
    rw [h1, ih]
    simp [add_monitor]
    omega

theorem foldl_add_monitor_ids :
    ∀ (names : List String) (acc : List Monitor),
      (∀ i, i < acc.length → (acc.getD i ⟨nmA, 0⟩).id = i) →
      ∀ i, i < (names.foldl add_monitor acc).length →
        ((names.foldl add_monitor acc).getD i ⟨nmA, 0⟩).id = i := by
  intro names
  induction names with
  | nil => intro acc hacc i hi; exact hacc i hi
  | cons nm rest ih =>
    intro acc hacc i hi
    have h1 : (nm :: rest).foldl add_monitor acc = rest.foldl add_monitor (add_monitor acc nm) :=
      rfl
    rw [h1] at hi ⊢
    refine ih (add_monitor acc nm) ?_ i hi
    intro j hj
    have hlen : (add_monitor acc nm).length = acc.length + 1 := by simp [add_monitor]
    rcases Nat.lt_or_ge j acc.length with hlt | hge
    · rw [add_monitor, List.getD_append _ _ _ _ hlt]
      exact hacc j hlt
    · have hj' : j = acc.length := by omega
      subst hj'
      rw [add_monitor, List.getD_append_right _ _ _ _ (le_refl _)]
      simp

/-- C8 counterexample: registering a monitor whose name is already
registered raises no error — `add_monitor` appends it unconditionally,
and the registry then holds two monitors of the same name, so names are
not unique. -/
theorem claimC8_cex :
    ¬ ((add_monitor (add_monitor [] nmA) nmA).map Monitor.name).Nodup ∧
      (add_monitor (add_monitor [] nmA) nmA).length = 2 := by
  constructor
  · intro h
    simp [add_monitor, nmA] at h
  · rfl

/-- C8 amended: `add_monitor` appends the monitor and assigns it a stable
dense id equal to its position (0..N-1) — after any sequence of
registrations every monitor's id is its index — but no duplicate-name
check is performed: registration always succeeds and the registry may
hold duplicate names. -/
theorem claimC8_amended (names : List String) :
    (register_all names).length = names.length ∧
    (∀ nm, register_all (names ++ [nm])
      = register_all names ++ [⟨nm, names.length⟩]) ∧
    (∀ i, i < (register_all names).length →
      ((register_all names).getD i ⟨nmA, 0⟩).id = i) := by
  have hlen : (register_all names).length = names.length := by
    rw [register_all, foldl_add_monitor_length]
    simp
  refine ⟨hlen, ?_, ?_⟩
  · intro nm
    have h2 : register_all (names ++ [nm]) = add_monitor (register_all names) nm := by
      rw [register_all, register_all, List.foldl_append]
      rfl
    rw [h2, add_monitor, hlen]
  · exact foldl_add_monitor_ids names [] (by intro i hi; simp at hi)

/-- C8 witness: registering two monitors yields dense ids 0 and 1. -/
theorem claimC8_wit :
    1 < (register_all [nmA, nmB]).length ∧
      ((register_all [nmA, nmB]).getD 1 ⟨nmA, 0⟩).id = 1 :=
  ⟨by decide, (claimC8_amended [nmA, nmB]).2.2 1 (by decide)⟩

/-! ### Real-kinematic-sim lemmas -/

theorem rks_update_fst (s : KinSimVar) (t : ℚ) : (rks_update s t).1 = ⟨some t⟩ := by
  rcases s with ⟨_ | t'⟩
  · rfl
  · by_cases h : t ≤ 0 <;> simp [rks_update, h]

theorem rks_effects_succ_getD :
    ∀ (ts : List ℚ) (s : KinSimVar) (i : ℕ) (d : ℚ),
      (rks_effects s ts).getD (i + 1) none = some d →
      d = ts.getD (i + 1) 0 - ts.getD i 0 := by
  intro ts
  induction ts with
  | nil => intro s i d h; simp [rks_effects] at h
  | cons t ts' ih =>
    intro s i d h
    have h1 : rks_effects s (t :: ts')
        = (rks_update s t).2 :: rks_effects ⟨some t⟩ ts' := by
      rw [rks_effects, rks_update_fst]
    rw [h1, List.getD_cons_succ] at h
    cases i with
    | zero =>
      cases ts' with
      | nil => simp [rks_effects] at h
      | cons t1 ts'' =>
        have h3 : (rks_effects (⟨some t⟩ : KinSimVar) (t1 :: ts'')).getD 0 none
            = (rks_update (⟨some t⟩ : KinSimVar) t1).2 := by
          rw [rks_effects, List.getD_cons_zero]
        rw [h3] at h
        simp only [List.getD_cons_succ, List.getD_cons_zero]
        by_cases ht : t1 ≤ 0
        · rw [show (rks_update (⟨some t⟩ : KinSimVar) t1).2 = none from by
            simp [rks_update, ht]] at h
          exact absurd h (by simp)
        · rw [show (rks_update (⟨some t⟩ : KinSimVar) t1).2 = some (t1 - t) from by
            simp [rks_update, ht]] at h
          injection h with h'
          exact h'.symm
    | succ j =>
      have := ih ⟨some t⟩ j d h
      simpa [List.getD_cons_succ] using this

/-- C10: the first `update` after `initialise` performs no kinematic
update; neither does any `update` whose current time is at most 0; every
`update` records the observed time in `last_time`; and whenever
`update_state` is invoked, its `dt` is the difference between the
current and the previous observed time values of the call sequence. -/
theorem claimC10 (s : KinSimVar) (t : ℚ) (ts : List ℚ) (i : ℕ) (d : ℚ) :
    (rks_update rks_initialise t).2 = none ∧
    (t ≤ 0 → (rks_update s t).2 = none) ∧
    (rks_update s t).1.last_time = some t ∧
    (rks_effects rks_initialise ts).getD 0 none = none ∧
    ((rks_effects rks_initialise ts).getD (i + 1) none = some d →
      d = ts.getD (i + 1) 0 - ts.getD i 0) := by
  refine ⟨rfl, ?_, by rw [rks_update_fst], ?_, rks_effects_succ_getD ts rks_initialise i d⟩
  · intro ht
    rcases s with ⟨_ | t'⟩
    · rfl
    · rw [rks_update]
      simp [ht]
  · cases ts with
    | nil => rfl
    | cons t0 ts' => rfl

/-- C10 witness: after `initialise`, times `[1, 3]` produce no kinematic
update on the first call and a `dt` of `3 - 1` on the second. -/
theorem claimC10_wit :
    (rks_effects rks_initialise [1, 3]).getD 1 none = some (3 - 1) ∧
      ((3 : ℚ) - 1) = List.getD [1, 3] 1 0 - List.getD [1, 3] 0 0 :=
  ⟨by rfl, (claimC10 rks_initialise 1 [1, 3] 0 (3 - 1)).2.2.2.2 (by rfl)⟩

/-! ### Filter-step lemmas -/

theorem length_setPrefTrue (xs : List Bool) (k : ℕ) :
    (setPrefTrue xs k).length = xs.length := by
  simp [setPrefTrue]
  omega

theorem weight_filter_of_length (weights : List ℚ) (K : ℕ) :
    (weight_filter_of weights K).length = weights.length := by
  simp [weight_filter_of, length_setPrefTrue]

theorem weight_filter_of_pos (weights : List ℚ) (K : ℕ) (hK : 0 < K) :
    weight_filter_of weights K
      = List.replicate (weights.length - K) true
        ++ (weights.map fun w => decide (w ≠ 0)).drop (weights.length - K) := by
  have hne : ¬ (K = 0) := by omega
  simp [weight_filter_of, setPrefTrue, hne, Nat.min_eq_left (Nat.sub_le _ _)]

theorem update_filters_wf (weights : List ℚ) (eS nS nE nN : ℕ) (hK : 0 < eS + nS) :
    (update_filters weights eS nS nE nN).weight_filter
      = List.replicate (weights.length - (eS + nS)) true
        ++ (weights.map fun w => decide (w ≠ 0)).drop (weights.length - (eS + nS)) := by
  have h1 : (update_filters weights eS nS nE nN).weight_filter
      = weight_filter_of weights (eS + nS) := rfl
  rw [h1, weight_filter_of_pos _ _ hK]

theorem update_filters_wf_length (weights : List ℚ) (eS nS nE nN : ℕ) :
    (update_filters weights eS nS nE nN).weight_filter.length = weights.length := by
  have h1 : (update_filters weights eS nS nE nN).weight_filter
      = weight_filter_of weights (eS + nS) := rfl
  rw [h1, weight_filter_of_length]

theorem getD_drop_bool (xs : List Bool) (m j : ℕ) (h : m + j < xs.length) :
    (xs.drop m).getD j false = xs.getD (m + j) false := by
  rw [List.getD_eq_getElem _ _ (by simp; omega), List.getD_eq_getElem _ _ h]
  exact List.getElem_drop ..

theorem getD_map_ne_zero (weights : List ℚ) (i : ℕ) (h : i < weights.length) :
    (weights.map fun w => decide (w ≠ 0)).getD i false = decide (weights.getD i 0 ≠ 0) := by
  rw [List.getD_eq_getElem _ _ (by simpa using h), List.getD_eq_getElem _ _ h,
    List.getElem_map]

theorem getD_replicate_true (m i : ℕ) (h : i < m) :
    (List.replicate m true).getD i false = true := by
  rw [List.getD_eq_getElem _ _ (by simpa using h)]
  exact List.getElem_replicate ..

theorem update_filters_bE_char (weights : List ℚ) (eS nS nE nN : ℕ)
    (hK : 0 < eS + nS) (hKn : eS + nS ≤ weights.length) (hES : eS ≤ nE) :
    (update_filters weights eS nS nE nN).bE_filter
      = List.replicate (nE - eS) true
        ++ ((weight_filter_of weights (eS + nS)).drop
            (weights.length - (eS + nS))).take eS := by
  have hne : ¬ (eS + nS = 0) := by omega
  have hdef : (update_filters weights eS nS nE nN).bE_filter
      = (if 0 < ((lastN (weight_filter_of weights (eS + nS)) (eS + nS)).take eS).length
         then setSuffix (List.replicate nE true)
            ((lastN (weight_filter_of weights (eS + nS)) (eS + nS)).take eS)
         else List.replicate nE true) := by
    simp only [update_filters, if_neg hne]
  have hlast : lastN (weight_filter_of weights (eS + nS)) (eS + nS)
      = (weight_filter_of weights (eS + nS)).drop (weights.length - (eS + nS)) := by
    rw [lastN, weight_filter_of_length]
  have hlen : ((weight_filter_of weights (eS + nS)).drop
      (weights.length - (eS + nS))).length = eS + nS := by
    rw [List.length_drop, weight_filter_of_length]
    omega
  rw [hdef, hlast]
  by_cases heS : eS = 0
  · subst heS
    simp
  · have hplen : (((weight_filter_of weights (eS + nS)).drop
        (weights.length - (eS + nS))).take eS).length = eS := by
      rw [List.length_take, hlen]
      omega
    rw [if_pos (by omega), setSuffix, hplen, List.length_replicate, List.take_replicate,
      Nat.min_eq_left (Nat.sub_le _ _)]

theorem update_filters_half_char (weights : List ℚ) (eS nS nE nN : ℕ)
    (hK : 0 < eS + nS) (hKn : eS + nS ≤ weights.length) (hNS : nS ≤ nN) :
    (update_filters weights eS nS nE nN).bA_filter_half
      = weight_filter_of weights (eS + nS)
        ++ List.replicate (nN - nS) true
        ++ ((weight_filter_of weights (eS + nS)).drop
            (weights.length - (eS + nS))).drop eS := by
  have hne : ¬ (eS + nS = 0) := by omega
  have hdef : (update_filters weights eS nS nE nN).bA_filter_half
      = setPref
          (if 0 < ((lastN (weight_filter_of weights (eS + nS)) (eS + nS)).drop eS).length
           then setSuffix (List.replicate (weights.length + nN) true)
              ((lastN (weight_filter_of weights (eS + nS)) (eS + nS)).drop eS)
           else List.replicate (weights.length + nN) true)
          (weight_filter_of weights (eS + nS)) := by
    simp only [update_filters, if_neg hne]
  have hlast : lastN (weight_filter_of weights (eS + nS)) (eS + nS)
      = (weight_filter_of weights (eS + nS)).drop (weights.length - (eS + nS)) := by
    rw [lastN, weight_filter_of_length]
  have hWlen : (weight_filter_of weights (eS + nS)).length = weights.length :=
    weight_filter_of_length _ _
  have hlen : ((weight_filter_of weights (eS + nS)).drop
      (weights.length - (eS + nS))).length = eS + nS := by
    rw [List.length_drop, hWlen]
    omega
  have hpart : (((weight_filter_of weights (eS + nS)).drop
      (weights.length - (eS + nS))).drop eS).length = nS := by
    rw [List.length_drop, hlen]
    omega
  rw [hdef, hlast]
  by_cases hnS : nS = 0
  · have hempty : ((weight_filter_of weights (eS + nS)).drop
        (weights.length - (eS + nS))).drop eS = [] := by
      apply List.eq_nil_of_length_eq_zero
      rw [hpart, hnS]
    rw [hempty, if_neg (by simp), setPref, List.length_replicate, hWlen,
      List.take_of_length_le (by rw [hWlen]; omega), List.drop_replicate,
      show weights.length + nN - weights.length = nN from by omega, hnS]
    simp
  · rw [if_pos (by omega), setSuffix, List.length_replicate, hpart, List.take_replicate,
      Nat.min_eq_left (Nat.sub_le _ _), setPref, List.length_append, List.length_replicate,
      hpart, hWlen,
      show weights.length + nN - nS + nS = weights.length + nN from by omega,
      List.take_of_length_le (by rw [hWlen]; omega), List.drop_append_eq_append_drop,
      List.drop_replicate, List.length_replicate,
      show weights.length + nN - nS - weights.length = nN - nS from by omega,
      show weights.length - (weights.length + nN - nS) = 0 from by omega, List.drop_zero,
      List.append_assoc]

theorem update_filters_half_length (weights : List ℚ) (eS nS nE nN : ℕ)
    (hK : 0 < eS + nS) (hKn : eS + nS ≤ weights.length) (hNS : nS ≤ nN) :
    (update_filters weights eS nS nE nN).bA_filter_half.length
      = weights.length + nN := by
  rw [update_filters_half_char weights eS nS nE nN hK hKn hNS]
  simp [weight_filter_of_length]
  omega

/-- C4 counterexample: on a problem with a single zero-weight column and
no slack columns at all, the Python slice `weight_filter[:-0]` is empty,
so the non-slack prefix is not forced to true and the zero-weight
non-slack column is removed — refuting that every column of the
non-slack prefix is kept regardless of weight. -/
theorem claimC4_cex :
    (update_filters [(0 : ℚ)] 0 0 0 0).weight_filter.getD 0 false = false ∧
      (0 : ℕ) < 1 - (0 + 0) ∧ filtered_weights [(0 : ℚ)] 0 0 0 0 = [] := by
  refine ⟨rfl, by omega, rfl⟩

/-- C4 amended: provided the problem has at least one slack column, a
column is removed exactly when its weight is zero and it lies beyond the
non-slack prefix; a removed equality-slack or inequality-slack column
drops the corresponding trailing equality/inequality constraint row (the
leading rows stay); the inequality row mask is the half-mask duplicated
over the lower and upper halves, so the two rows of one constraint are
kept or dropped together; and in the spec's scenario (one zero-weight
inequality-slack column, no other zero weights) the weight vector
shrinks by exactly one and exactly one lower/upper row pair of the
inequality block is dropped.  Without any slack column the non-slack
prefix is not protected (see the counterexample). -/
theorem claimC4_amended (weights : List ℚ) (eS nS nE nN : ℕ)
    (hK : 0 < eS + nS) (hKn : eS + nS ≤ weights.length)
    (hES : eS ≤ nE) (hNS : nS ≤ nN) :
    (∀ i, i < weights.length →
      ((update_filters weights eS nS nE nN).weight_filter.getD i false = true ↔
        (i < weights.length - (eS + nS) ∨ weights.getD i 0 ≠ 0))) ∧
    ((update_filters weights eS nS nE nN).bE_filter
      = List.replicate (nE - eS) true
        ++ (((update_filters weights eS nS nE nN).weight_filter.drop
            (weights.length - (eS + nS))).take eS)) ∧
    ((update_filters weights eS nS nE nN).bA_filter_half
      = (update_filters weights eS nS nE nN).weight_filter
        ++ List.replicate (nN - nS) true
        ++ (((update_filters weights eS nS nE nN).weight_filter.drop
            (weights.length - (eS + nS))).drop eS)) ∧
    (∀ j, j < weights.length + nN →
      ((update_filters weights eS nS nE nN).bA_filter.getD j false
          = (update_filters weights eS nS nE nN).bA_filter_half.getD j false ∧
        (update_filters weights eS nS nE nN).bA_filter.getD
            (weights.length + nN + j) false
          = (update_filters weights eS nS nE nN).bA_filter_half.getD j false)) ∧
    filtered_weights [2, 3, 0] 1 1 1 1 = [2, 3] ∧
    (update_filters [2, 3, 0] 1 1 1 1).bA_filter_half = [true, true, false, false] := by
  have hwf : (update_filters weights eS nS nE nN).weight_filter
      = weight_filter_of weights (eS + nS) := rfl
  have hWlen : (weight_filter_of weights (eS + nS)).length = weights.length :=
    weight_filter_of_length _ _
  refine ⟨?_, ?_, ?_, ?_, rfl, rfl⟩
  · intro i hi
    rw [hwf, weight_filter_of_pos _ _ hK]
    by_cases him : i < weights.length - (eS + nS)
    · rw [List.getD_append _ _ _ _ (by simpa using him), getD_replicate_true _ _ him]
      simp [him]
    · rw [List.getD_append_right _ _ _ _ (by simpa using him)]
      rw [List.length_replicate]
      have h1 : (weights.length - (eS + nS)) + (i - (weights.length - (eS + nS))) = i := by
        omega
      rw [getD_drop_bool _ _ _ (by simp; omega), h1, getD_map_ne_zero _ _ hi]
      simp only [decide_eq_true_eq]
      constructor
      · intro hne0
        exact Or.inr hne0
      · intro hor
        rcases hor with hlt | hne0
        · exact absurd hlt him
        · exact hne0
  · rw [hwf]
    exact update_filters_bE_char weights eS nS nE nN hK hKn hES
  · rw [hwf]
    exact update_filters_half_char weights eS nS nE nN hK hKn hNS
  · intro j hj
    have hhalf : (update_filters weights eS nS nE nN).bA_filter_half.length
        = weights.length + nN :=
      update_filters_half_length weights eS nS nE nN hK hKn hNS
    have hbA : (update_filters weights eS nS nE nN).bA_filter
        = (update_filters weights eS nS nE nN).bA_filter_half
          ++ (update_filters weights eS nS nE nN).bA_filter_half := rfl
    constructor
    · rw [hbA, List.getD_append _ _ _ _ (by omega)]
    · rw [hbA, List.getD_append_right _ _ _ _ (by omega), hhalf]
      congr 1
      omega

/-- C4 witness: the scenario problem (non-slack weight 2, equality-slack
weight 3, inequality-slack weight 0) instantiates the amended theorem:
the zero-weight inequality-slack column is removed while the non-slack
column is kept. -/
theorem claimC4_wit :
    (¬ ((update_filters [2, 3, 0] 1 1 1 1).weight_filter.getD 2 false = true)) ∧
      (update_filters [2, 3, 0] 1 1 1 1).weight_filter.getD 0 false = true := by
  have h := claimC4_amended [2, 3, 0] 1 1 1 1 (by omega) (by simp) (by omega) (by omega)
  constructor
  · intro hkept
    have h2 := (h.1 2 (by simp)).mp hkept
    rcases h2 with hlt | hne0
    · simp at hlt
    · exact hne0 (by rfl)
  · exact (h.1 0 (by simp)).mpr (Or.inl (by simp))

end GiskardPy
